import Mathlib

/-!
Verification development for the OpusControl monitoring backend
(`src/server/server.py`).  The Python analysis-and-remediation pipeline is
shallowly embedded: every Python function relevant to the claims is translated
to an executable Lean definition carrying the source name, with Python floats
modelled as `ℚ`, Python ints as `Int`, Python dicts as insertion-ordered
association lists, and fallible paths as `Option`.
-/

/-! ## Generic Python-dict model

Python 3 dicts preserve insertion order; assigning to an existing key replaces
the value in place, a fresh key is appended at the end.  `dictInsert` mirrors
that on an association list, `dictLookup` mirrors `d.get(k)`. -/

def dictInsert {κ α : Type} [DecidableEq κ] : List (κ × α) → κ → α → List (κ × α)
  | [], k, v => [(k, v)]
  | (k', v') :: rest, k, v =>
      if k' = k then (k, v) :: rest else (k', v') :: dictInsert rest k v

def dictLookup {κ α : Type} [DecidableEq κ] : List (κ × α) → κ → Option α
  | [], _ => none
  | (k', v) :: rest, k => if k' = k then some v else dictLookup rest k

theorem dictLookup_dictInsert {κ α : Type} [DecidableEq κ]
    (d : List (κ × α)) (k k' : κ) (v : α) :
    dictLookup (dictInsert d k v) k' = if k = k' then some v else dictLookup d k' := by
  induction d with
  | nil => simp [dictInsert, dictLookup]
  | cons p rest ih =>
      obtain ⟨pk, pv⟩ := p
      by_cases hpk : pk = k
      · subst hpk
        by_cases h : pk = k' <;> simp [dictInsert, dictLookup, h]
      · by_cases h : pk = k'
        · subst h
          have hne : ¬ k = pk := fun hh => hpk hh.symm
          simp [dictInsert, dictLookup, hpk, hne]
        · simp [dictInsert, dictLookup, hpk, h, ih]

/-! ## Python string helpers

`String.toLower`/`trim` from core do not reduce in the kernel, so the Python
string methods used by the server are re-implemented over `String.data`.
`pyLower` is `str.lower()`, `pyStrip` is `str.strip()`, and
`strHasSub hay needle` is Python's `needle in hay` (substring containment;
true for the empty needle, as in Python). -/

def pyLower (s : String) : String := ⟨s.data.map Char.toLower⟩

def pyStrip (s : String) : String :=
  ⟨((s.data.dropWhile Char.isWhitespace).reverse.dropWhile Char.isWhitespace).reverse⟩

def listHasInfix (needle : List Char) : List Char → Bool
  | [] => needle.isEmpty
  | c :: rest => needle.isPrefixOf (c :: rest) || listHasInfix needle rest

def strHasSub (hay needle : String) : Bool := listHasInfix needle.data hay.data

/-! ## Data model -/

/-- A decoded metric sample `{pid, name, cpu_percent, mem_mb}` from the
`system:metrics` stream (spec §3 MetricSample; floats as `ℚ`). -/
structure Metric where
  pid : Int
  name : String
  cpu_percent : ℚ
  mem_mb : ℚ
deriving DecidableEq

/-- The dict returned by `get_context` (server.py lines 66-93): watch/ignore
lists, integer thresholds and the integer time window, with every key
present (defaults filled in). -/
structure Context where
  watch : List String
  ignore : List String
  cpu_percent : Int
  mem_mb : Int
  time_window_sec : Int
deriving DecidableEq

/-- The anomaly-result dict (spec §3 AnomalyResult).  Python dicts are open,
so the keys that are only sometimes present are `Option` fields; keys absent
from a freshly built detector result default to `none` / `false`. -/
structure AnomalyResult where
  reasoning_trace : String := ""
  suggested_action : Option String := none
  target_pid : Option Int := none
  target_name : String := ""
  throttle_value : Option ℚ := none
  auto_fix_applied : Bool := false
  user_usual_throttle : Option ℚ := none
  dismiss_count : Option Int := none
  suggest_reduce_alerts : Option Bool := none
deriving DecidableEq

/-- Module-level constant `DEFAULT_THROTTLE_VALUE = 0.5` (server.py line 20). -/
def DEFAULT_THROTTLE_VALUE : ℚ := 1/2

/-- Module-level constant `AUTO_FIX_COOLDOWN_SEC = 60` (server.py line 21). -/
def AUTO_FIX_COOLDOWN_SEC : ℚ := 60

/-- Module-level constant `DISMISS_SUGGEST_THRESHOLD = 3` (server.py line 28). -/
def DISMISS_SUGGEST_THRESHOLD : Int := 3

/-- Module-level constant `DEFAULT_CPU_THRESHOLD = 90` (server.py line 29). -/
def DEFAULT_CPU_THRESHOLD : Int := 90

/-- Module-level constant `DEFAULT_MEM_THRESHOLD_MB = 1500` (server.py line 30). -/
def DEFAULT_MEM_THRESHOLD_MB : Int := 1500

/-! ## Context store (`get_context` / `set_context`)

The Redis keys `opus:context:*` are modelled as a record of optional decoded
values (`none` = key absent).  `set_context` always writes well-formed JSON,
and `get_context`'s exception path (malformed stored JSON) is outside the
claims' scope, so values are kept in decoded form. -/

structure CtxStore where
  watchRaw : Option (List String)
  ignoreRaw : Option (List String)
  thresholdsRaw : Option (Option Int × Option Int)
  timeWindowRaw : Option Int
deriving DecidableEq

/-- `get_context` (server.py lines 66-93): defaults for missing keys, and for
a thresholds object missing either key the default is filled in. -/
def get_context (s : CtxStore) : Context :=
  { watch := s.watchRaw.getD []
    ignore := s.ignoreRaw.getD []
    cpu_percent :=
      match s.thresholdsRaw with
      | none => DEFAULT_CPU_THRESHOLD
      | some (c, _) => c.getD DEFAULT_CPU_THRESHOLD
    mem_mb :=
      match s.thresholdsRaw with
      | none => DEFAULT_MEM_THRESHOLD_MB
      | some (_, m) => m.getD DEFAULT_MEM_THRESHOLD_MB
    time_window_sec := s.timeWindowRaw.getD 60 }

/-- The body of a `PUT /api/context` request, as used by `set_context`
(fields absent from the body are `none`). -/
structure CtxBody where
  watch : Option (List String)
  ignore : Option (List String)
  thresholds : Option (Option Int × Option Int)
  time_window_sec : Option Int
deriving DecidableEq

/-- `set_context` (server.py lines 150-169): each present field is written;
`cpu_percent` is clamped to `[0, 100]`, `mem_mb` to `≥ 0` and
`time_window_sec` to `[10, 600]` before writing. -/
def set_context (s : CtxStore) (b : CtxBody) : CtxStore :=
  let s1 :=
    match b.watch with
    | some l => { s with watchRaw := some l }
    | none => s
  let s2 :=
    match b.ignore with
    | some l => { s1 with ignoreRaw := some l }
    | none => s1
  let s3 :=
    match b.thresholds with
    | some (c, m) =>
        let cpu := max 0 (min 100 (c.getD DEFAULT_CPU_THRESHOLD))
        let mem := max 0 (m.getD DEFAULT_MEM_THRESHOLD_MB)
        { s2 with thresholdsRaw := some (some cpu, some mem) }
    | none => s2
  match b.time_window_sec with
  | some t => { s3 with timeWindowRaw := some (max 10 (min 600 t)) }
  | none => s3

/-- C7: Writing a context with in-range values and then reading the context
returns those same values unchanged, while out-of-range writes are clamped on
write: `time_window_sec` to `[10,600]`, `cpu_percent` to `[0,100]`, and
`mem_mb` to `≥ 0`.  The single equation covers both parts: for in-range
inputs every clamp is the identity, so the write-read round-trip returns the
written values; out-of-range inputs read back clamped (writing 5 reads
back 10). -/
theorem set_get_context_roundtrip (s : CtxStore) (w i : List String) (c m tw : Int) :
    get_context (set_context s ⟨some w, some i, some (some c, some m), some tw⟩) =
      { watch := w, ignore := i,
        cpu_percent := max 0 (min 100 c), mem_mb := max 0 m,
        time_window_sec := max 10 (min 600 tw) } := rfl

/-! ## Broadcast hub fan-out (`broadcast_metrics`, `analysis_loop` send loop)

Viewer sessions are modelled by identifiers and the outcome of a network send
by an oracle `ok : Nat → Bool`.  Both send loops (server.py lines 728-737 and
480-486) iterate over a copy of `ws_connections`, `try` the send, and on any
exception execute `pass`: the session is *not* removed, nothing is retried,
and the loop moves on.  The model returns (sessions that received the
message, the connection list after the loop). -/

def broadcast_metrics (conns : List Nat) (ok : Nat → Bool) : List Nat × List Nat :=
  (conns.foldl (fun acc ws => if ok ws then acc ++ [ws] else acc) [], conns)

theorem broadcast_foldl_filter (ok : Nat → Bool) (l acc : List Nat) :
    l.foldl (fun a w => if ok w then a ++ [w] else a) acc = acc ++ l.filter ok := by
  induction l generalizing acc with
  | nil => simp
  | cons x xs ih =>
      by_cases h : ok x <;> simp [List.foldl_cons, h, ih, List.filter_cons]

/-- C9 (amended): a send is attempted to every connected session exactly once
and in order; the sessions that receive the message are exactly those whose
send succeeds, so one failing session leaves delivery to all others
unaffected and nothing is retried; but the failing session is *not* evicted —
the connection list after the loop is unchanged (`except Exception: pass`,
server.py lines 734-737; eviction happens only when a session's own handler
terminates, lines 666-668). -/
theorem broadcast_metrics_best_effort (conns : List Nat) (ok : Nat → Bool) :
    (broadcast_metrics conns ok).1 = conns.filter ok ∧
    (broadcast_metrics conns ok).2 = conns := by
  refine ⟨?_, rfl⟩
  simpa using broadcast_foldl_filter ok conns []

/-- C9 counterexample: with sessions `[1, 2]` where the send to session `1`
fails, the claim says session `1` is evicted from the connection set, leaving
`[2]`; the code leaves the connection set unchanged at `[1, 2]`. -/
theorem broadcast_metrics_no_eviction_cex :
    (broadcast_metrics [1, 2] (fun s => s == 2)).2 ≠ [2] := by decide

/-! ## Candidate selector (`build_metrics_for_analysis`, server.py lines 172-207)

The function is embedded as a pipeline of named stages mirroring the source
lines: window slice (182-183), dedup by pid (184-189), ignore filter
(190-198), watch re-include (199-206), sort and truncate (207). -/

/-- Line 181: `time_window_sec = context.get("time_window_sec") or 60` — a
falsy (zero) window falls back to 60. -/
def effTimeWindow (c : Context) : Int :=
  if c.time_window_sec = 0 then 60 else c.time_window_sec

/-- Line 182: `n = min(len(buffer_snapshot), max(1, int(time_window_sec / METRICS_BROADCAST_INTERVAL_SEC)))`
with `METRICS_BROADCAST_INTERVAL_SEC = 1.5`.  Python `int()` truncates the
float quotient toward zero, and `W / 1.5 = 2W / 3` exactly; `1.5` is exactly
representable and for integral `W` in range the float quotient truncates to
the same integer as the exact rational (the exact quotient is either an
integer, which the float division returns exactly, or lies a third away from
one), so the truncation is `Int.tdiv`. -/
def windowCount (M : Nat) (tw : Int) : Nat :=
  min M (max 1 ((2 * tw).tdiv 3)).toNat

/-- The last `n` elements of a list: `buffer_snapshot[-n:]` for `n ≥ 1`
(line 183). -/
def lastN {α : Type} (n : Nat) (l : List α) : List α := l.drop (l.length - n)

/-- Lines 181-183: the windowed slice `recent` of the buffer snapshot. -/
def recentStage (s : List Metric) (c : Context) : List Metric :=
  lastN (windowCount s.length (effTimeWindow c)) s

/-- Lines 184-189: `by_pid` — a dict keyed by pid, later occurrences
overwriting earlier ones (every decoded sample carries a pid). -/
def byPid (ms : List Metric) : List (Int × Metric) :=
  ms.foldl (fun acc m => dictInsert acc m.pid m) []

/-- The values of the `by_pid` dict, in insertion order. -/
def byPidValues (ms : List Metric) : List Metric :=
  (byPid ms).map (fun p => p.2)

/-- Lines 190-197: `is_ignored` — the candidate's lowercase name contains the
lowercased ignore entry, or the entry equals the pid string. -/
def is_ignored (ignore : List String) (m : Metric) : Bool :=
  ignore.any (fun ign =>
    let s := pyLower ign
    strHasSub (pyLower m.name) s || s == toString m.pid)

/-- Line 199: `watch_set = {str(x).lower().strip() for x in watch if x}`
(kept as a list; only membership is ever used). -/
def watchSet (watch : List String) : List String :=
  (watch.filter (fun x => x ≠ "")).map (fun x => pyStrip (pyLower x))

/-- Line 205: the re-include condition — the lowercased name equals a watch
entry, or a watch entry is a substring of the name, or a watch entry equals
the pid string (the pid is only ever matched exactly). -/
def watchMatch (ws : List String) (v : Metric) : Bool :=
  let name := pyLower v.name
  let pidStr := toString v.pid
  ws.any (fun w => name == w || pidStr == w) ||
    ws.any (fun w => strHasSub name w || w == pidStr)

/-- Lines 199-206: walk `by_pid.values()`, skipping entries already in
`candidates` and appending those matching the watch list. -/
def reinclude (ws : List String) (vals cands : List Metric) : List Metric :=
  vals.foldl
    (fun acc v =>
      if v ∈ acc then acc
      else if watchMatch ws v then acc ++ [v] else acc)
    cands

/-- Lines 184-206: the candidate set before sorting/truncation — the
deduplicated window minus ignored entries, plus watch-list re-includes. -/
def candidateStage (s : List Metric) (c : Context) : List Metric :=
  let vals := byPidValues (recentStage s c)
  let cands := vals.filter (fun v => ! is_ignored c.ignore v)
  reinclude (watchSet c.watch) vals cands

/-- Line 207: `sorted(candidates, key=lambda m: m.get("cpu_percent", 0), reverse=True)`.
Python's sort is stable; `insertionSort` with `b.cpu ≤ a.cpu` inserts each
element before the first strictly smaller key and therefore after all equal
keys, reproducing the stable descending order. -/
def sortByCpuDesc (l : List Metric) : List Metric :=
  l.insertionSort (fun a b => b.cpu_percent ≤ a.cpu_percent)

/-- `build_metrics_for_analysis` (lines 172-207): empty snapshot short-circuit,
then the staged pipeline, truncated to the top 20. -/
def build_metrics_for_analysis (s : List Metric) (c : Context) : List Metric :=
  match s with
  | [] => []
  | _ => (sortByCpuDesc (candidateStage s c)).take 20

/-! ### Dict and pipeline lemmas -/

theorem byPid_append (ms : List Metric) (m : Metric) :
    byPid (ms ++ [m]) = dictInsert (byPid ms) m.pid m := by
  simp [byPid, List.foldl_append]

theorem byPid_lookup (ms : List Metric) (p : Int) :
    dictLookup (byPid ms) p = (ms.filter (fun m => m.pid = p)).getLast? := by
  induction ms using List.reverseRecOn with
  | nil => rfl
  | append_singleton l a ih =>
      rw [byPid_append, dictLookup_dictInsert]
      by_cases h : a.pid = p
      · simp [List.filter_append, h, List.getLast?_concat]
      · simp [List.filter_append, h, ih]

theorem dictInsert_keys {κ α : Type} [DecidableEq κ] (d : List (κ × α)) (k : κ) (v : α) :
    (dictInsert d k v).map Prod.fst =
      if k ∈ d.map Prod.fst then d.map Prod.fst else d.map Prod.fst ++ [k] := by
  induction d with
  | nil => simp [dictInsert]
  | cons p rest ih =>
      obtain ⟨pk, pv⟩ := p
      by_cases h : pk = k
      · subst h; simp [dictInsert]
      · have h' : ¬ k = pk := fun hh => h hh.symm
        by_cases h2 : k ∈ rest.map Prod.fst <;>
          simp [dictInsert, h, h', h2, ih]

theorem dictInsert_keys_nodup {κ α : Type} [DecidableEq κ]
    (d : List (κ × α)) (k : κ) (v : α) (h : (d.map Prod.fst).Nodup) :
    ((dictInsert d k v).map Prod.fst).Nodup := by
  rw [dictInsert_keys]
  by_cases h2 : k ∈ d.map Prod.fst
  · simpa [h2] using h
  · rw [if_neg h2, List.nodup_append]
    exact ⟨h, List.nodup_singleton k,
      fun a ha hb => h2 (by rwa [List.mem_singleton.mp hb] at ha)⟩

theorem dictInsert_mem {κ α : Type} [DecidableEq κ]
    (d : List (κ × α)) (k : κ) (v : α) :
    ∀ e ∈ dictInsert d k v, e = (k, v) ∨ e ∈ d := by
  induction d with
  | nil => simp [dictInsert]
  | cons p rest ih =>
      obtain ⟨pk, pv⟩ := p
      intro e he
      by_cases h : pk = k
      · subst h
        rcases List.mem_cons.mp (by simpa [dictInsert] using he) with h1 | h1
        · exact Or.inl h1
        · exact Or.inr (List.mem_cons_of_mem _ h1)
      · rcases List.mem_cons.mp (by simpa [dictInsert, h] using he) with h1 | h1
        · exact Or.inr (by simp [h1])
        · rcases ih e h1 with h2 | h2
          · exact Or.inl h2
          · exact Or.inr (List.mem_cons_of_mem _ h2)

theorem byPid_pid_eq (ms : List Metric) : ∀ e ∈ byPid ms, e.2.pid = e.1 := by
  induction ms using List.reverseRecOn with
  | nil => simp [byPid]
  | append_singleton l a ih =>
      intro e he
      rw [byPid_append] at he
      rcases dictInsert_mem _ _ _ e he with h | h
      · simp [h]
      · exact ih e h

theorem byPid_keys_nodup (ms : List Metric) : ((byPid ms).map Prod.fst).Nodup := by
  induction ms using List.reverseRecOn with
  | nil => simp [byPid]
  | append_singleton l a ih =>
      rw [byPid_append]
      exact dictInsert_keys_nodup _ _ _ ih

theorem byPidValues_pairwise (ms : List Metric) :
    (byPidValues ms).Pairwise (fun a b => a.pid ≠ b.pid) := by
  have hk := byPid_keys_nodup ms
  have he := byPid_pid_eq ms
  have h1 : (byPid ms).Pairwise (fun p q => p.1 ≠ q.1) := List.pairwise_map.mp hk
  have h2 : (byPid ms).Pairwise (fun p q => p.2.pid ≠ q.2.pid) :=
    h1.imp_of_mem (fun ha hb hR => by rw [he _ ha, he _ hb]; exact hR)
  exact List.pairwise_map.mpr h2

theorem reinclude_cons (ws : List String) (u : Metric) (rest cands : List Metric) :
    reinclude ws (u :: rest) cands =
      reinclude ws rest
        (if u ∈ cands then cands else if watchMatch ws u then cands ++ [u] else cands) := rfl

theorem reinclude_subset (ws : List String) (vals : List Metric) :
    ∀ cands, cands ⊆ reinclude ws vals cands := by
  induction vals with
  | nil => intro cands; simp [reinclude]
  | cons u rest ih =>
      intro cands
      rw [reinclude_cons]
      refine List.Subset.trans ?_ (ih _)
      by_cases h1 : u ∈ cands
      · simp [h1]
      · by_cases h2 : watchMatch ws u <;>
          simp [h1, h2, List.subset_append_left]

theorem mem_reinclude (ws : List String) (v : Metric) (vals : List Metric) :
    ∀ cands, v ∈ vals → watchMatch ws v = true → v ∈ reinclude ws vals cands := by
  induction vals with
  | nil => intro cands hv _; cases hv
  | cons u rest ih =>
      intro cands hv hw
      rw [reinclude_cons]
      rcases List.mem_cons.mp hv with rfl | hv2
      · refine reinclude_subset ws rest _ ?_
        by_cases hc : v ∈ cands
        · simp [hc]
        · simp [hc, hw]
      · exact ih _ hv2 hw

theorem reinclude_nodup (ws : List String) (vals0 : List Metric) :
    ∀ (vs cands : List Metric), (∀ x ∈ vs, x ∈ vals0) → (∀ x ∈ cands, x ∈ vals0) →
      cands.Nodup →
      (∀ x ∈ reinclude ws vs cands, x ∈ vals0) ∧ (reinclude ws vs cands).Nodup := by
  intro vs
  induction vs with
  | nil => intro cands _ h2 h3; exact ⟨h2, h3⟩
  | cons u rest ih =>
      intro cands hvs hc hnd
      rw [reinclude_cons]
      by_cases h1 : u ∈ cands
      · rw [if_pos h1]
        exact ih _ (fun x hx => hvs x (List.mem_cons_of_mem _ hx)) hc hnd
      · by_cases h2 : watchMatch ws u
        · rw [if_neg h1, if_pos h2]
          refine ih _ (fun x hx => hvs x (List.mem_cons_of_mem _ hx)) ?_ ?_
          · intro x hx
            rcases List.mem_append.mp hx with h3 | h3
            · exact hc x h3
            · rw [List.mem_singleton.mp h3]
              exact hvs u (List.mem_cons_self _ _)
          · rw [List.nodup_append]
            exact ⟨hnd, List.nodup_singleton u,
              fun a ha hb => h1 (by rwa [List.mem_singleton.mp hb] at ha)⟩
        · rw [if_neg h1, if_neg h2]
          exact ih _ (fun x hx => hvs x (List.mem_cons_of_mem _ hx)) hc hnd

theorem candidateStage_pairwise (s : List Metric) (c : Context) :
    (candidateStage s c).Pairwise (fun a b => a.pid ≠ b.pid) := by
  have hvp := byPidValues_pairwise (recentStage s c)
  have hvnd : (byPidValues (recentStage s c)).Nodup :=
    hvp.imp (fun h he => h (by rw [he]))
  have hc1 : ∀ x ∈ (byPidValues (recentStage s c)).filter
      (fun v => ! is_ignored c.ignore v), x ∈ byPidValues (recentStage s c) :=
    fun x hx => List.mem_of_mem_filter hx
  have hcnd := hvnd.filter (fun v => ! is_ignored c.ignore v)
  obtain ⟨hsub, hnd⟩ :=
    reinclude_nodup (watchSet c.watch) (byPidValues (recentStage s c)) _ _
      (fun x hx => hx) hc1 hcnd
  have hforall := hvp.forall (fun {a b} h => fun he => h he.symm)
  exact hnd.imp_of_mem (fun {a b} ha hb hne => hforall (hsub _ ha) (hsub _ hb) hne)

/-- C5 (amended): the candidate list returned by the selector contains at
most one entry per pid, has length at most 20, and is sorted by
`cpu_percent` in non-increasing order.  (The frozen claim asks for a
*strictly* descending sort; candidates with equal `cpu_percent` are kept in
stable order, so only non-strict sortedness holds — see the
counterexample.) -/
theorem build_metrics_invariants (s : List Metric) (c : Context) :
    (build_metrics_for_analysis s c).length ≤ 20 ∧
    (build_metrics_for_analysis s c).Pairwise (fun a b => a.pid ≠ b.pid) ∧
    (build_metrics_for_analysis s c).Sorted (fun a b => b.cpu_percent ≤ a.cpu_percent) := by
  cases s with
  | nil =>
      exact ⟨by simp [build_metrics_for_analysis],
        by simp [build_metrics_for_analysis],
        by simp [build_metrics_for_analysis, List.Sorted]⟩
  | cons m rest =>
      refine ⟨List.length_take_le _ _, ?_, ?_⟩
      · have hperm := List.perm_insertionSort
          (fun a b : Metric => b.cpu_percent ≤ a.cpu_percent)
          (candidateStage (m :: rest) c)
        have hp := candidateStage_pairwise (m :: rest) c
        have hsorted :
            (sortByCpuDesc (candidateStage (m :: rest) c)).Pairwise
              (fun a b => a.pid ≠ b.pid) :=
          (hperm.pairwise_iff (fun {a b} h => fun he => h he.symm)).mpr hp
        exact hsorted.sublist (List.take_sublist _ _)
      · haveI : IsTotal Metric (fun a b => b.cpu_percent ≤ a.cpu_percent) :=
          ⟨fun a b => le_total b.cpu_percent a.cpu_percent⟩
        haveI : IsTrans Metric (fun a b => b.cpu_percent ≤ a.cpu_percent) :=
          ⟨fun _ _ _ h1 h2 => le_trans h2 h1⟩
        have hs := List.sorted_insertionSort
          (fun a b : Metric => b.cpu_percent ≤ a.cpu_percent)
          (candidateStage (m :: rest) c)
        exact hs.sublist (List.take_sublist _ _)

/-- C5 counterexample: two candidates with equal `cpu_percent` (pids 1 and 2,
both at 50%) survive to the output, so the output is *not* strictly sorted
by `cpu_percent` descending, refuting the claim as stated. -/
theorem build_metrics_not_strictly_sorted_cex :
    ¬ (build_metrics_for_analysis
        [⟨1, "a", 50, 0⟩, ⟨2, "b", 50, 0⟩]
        ⟨[], [], 90, 1500, 60⟩).Sorted
      (fun a b => b.cpu_percent < a.cpu_percent) := by decide

/-! ## C3: watch overriding ignore -/

/-- The watch-match predicate as the frozen claim words it: the entry's name
*or pid string* matches a watch entry exactly or as a substring.  (The code's
`watchMatch` never does a substring match on the pid string.) -/
def claimWatchMatch (ws : List String) (v : Metric) : Bool :=
  let name := pyLower v.name
  let pidStr := toString v.pid
  ws.any (fun w => name == w || strHasSub name w || pidStr == w || strHasSub pidStr w)

/-- C3 (amended): a deduplicated entry excluded by the ignore list is
nonetheless part of the candidate set whenever its lowercase name equals a
watch entry, a watch entry occurs in its name as a substring, or a watch
entry equals its pid string exactly (the condition of server.py line 205) —
watch membership overrides ignore exclusion.  (The frozen claim also allows
a *substring* match on the pid string, which the code does not do — see the
counterexample.) -/
theorem watch_overrides_ignore (s : List Metric) (c : Context) (v : Metric)
    (hv : v ∈ byPidValues (recentStage s c))
    (hign : is_ignored c.ignore v = true)
    (hw : watchMatch (watchSet c.watch) v = true) :
    v ∈ candidateStage s c :=
  mem_reinclude (watchSet c.watch) v (byPidValues (recentStage s c)) _ hv hw

/-- Witness for `watch_overrides_ignore`: the sample named `nginx` (pid 3) is
excluded by `ignore = ["nginx"]` but re-included because `watch = ["nginx"]`
matches its name. -/
theorem watch_overrides_ignore_witness :
    (⟨3, "nginx", 8, 120⟩ : Metric) ∈ byPidValues
        (recentStage [⟨3, "nginx", 8, 120⟩] ⟨["nginx"], ["nginx"], 90, 1500, 60⟩) ∧
    is_ignored ["nginx"] ⟨3, "nginx", 8, 120⟩ = true ∧
    watchMatch (watchSet ["nginx"]) ⟨3, "nginx", 8, 120⟩ = true ∧
    (⟨3, "nginx", 8, 120⟩ : Metric) ∈
      candidateStage [⟨3, "nginx", 8, 120⟩] ⟨["nginx"], ["nginx"], 90, 1500, 60⟩ :=
  ⟨by decide, by decide, by decide,
    watch_overrides_ignore [⟨3, "nginx", 8, 120⟩] ⟨["nginx"], ["nginx"], 90, 1500, 60⟩
      ⟨3, "nginx", 8, 120⟩ (by decide) (by decide) (by decide)⟩

/-- C3 counterexample: pid 123 named `xyz` is ignored via `ignore = ["xyz"]`;
the watch entry `"2"` matches the pid string `"123"` as a substring, so the
claim says the entry is re-included — but the code matches pids only
exactly, and the entry stays excluded from the candidate set (and from the
final candidate list). -/
theorem watch_pid_substring_cex :
    is_ignored ["xyz"] ⟨123, "xyz", 50, 50⟩ = true ∧
    claimWatchMatch (watchSet ["2"]) ⟨123, "xyz", 50, 50⟩ = true ∧
    (⟨123, "xyz", 50, 50⟩ : Metric) ∈
      byPidValues (recentStage [⟨123, "xyz", 50, 50⟩] ⟨["2"], ["xyz"], 90, 1500, 60⟩) ∧
    (⟨123, "xyz", 50, 50⟩ : Metric) ∉
      candidateStage [⟨123, "xyz", 50, 50⟩] ⟨["2"], ["xyz"], 90, 1500, 60⟩ ∧
    (⟨123, "xyz", 50, 50⟩ : Metric) ∉
      build_metrics_for_analysis [⟨123, "xyz", 50, 50⟩] ⟨["2"], ["xyz"], 90, 1500, 60⟩ := by
  refine ⟨by decide, by decide, by decide, by decide, by decide⟩

/-! ## C4: window slice and dedup -/

/-- C4 (amended): for a buffer snapshot of size `M` and window `W`, the
selector takes exactly the last `min(M, N)` buffer entries where
`N = max(1, trunc(W / 1.5))` — Python `int()` *truncates* the quotient
(`(2W).tdiv 3`), it does not round to nearest as the frozen claim states —
and deduplicates them by pid keeping, for each pid, the most recent
occurrence in that slice. -/
theorem window_slice_dedup (s : List Metric) (c : Context) :
    (recentStage s c).length =
      min s.length (max 1 ((2 * effTimeWindow c).tdiv 3)).toNat ∧
    (recentStage s c).IsSuffix s ∧
    ∀ p : Int, dictLookup (byPid (recentStage s c)) p =
      ((recentStage s c).filter (fun m => m.pid = p)).getLast? := by
  refine ⟨?_, List.drop_suffix _ _, fun p => byPid_lookup _ p⟩
  have hn : windowCount s.length (effTimeWindow c) ≤ s.length :=
    Nat.min_le_left _ _
  have hlen : (recentStage s c).length =
      s.length - (s.length - windowCount s.length (effTimeWindow c)) := by
    simp [recentStage, lastN]
  rw [hlen, windowCount] at *
  omega

/-- A seven-sample snapshot with distinct pids, used to separate truncation
from rounding at `time_window_sec = 10`. -/
def cexSnapshot7 : List Metric :=
  [⟨1, "p1", 10, 0⟩, ⟨2, "p2", 20, 0⟩, ⟨3, "p3", 30, 0⟩, ⟨4, "p4", 40, 0⟩,
   ⟨5, "p5", 50, 0⟩, ⟨6, "p6", 60, 0⟩, ⟨7, "p7", 70, 0⟩]

/-- C4 counterexample: with `time_window_sec = 10` the claim's window size is
`N = max(1, round(10 / 1.5)) = round(6.67) = 7`, so the claimed slice of a
7-entry snapshot is the whole snapshot; the code computes
`int(10 / 1.5) = 6` (truncation) and drops the oldest entry, so the slice
differs from the claimed one. -/
theorem window_round_cex :
    recentStage cexSnapshot7 ⟨[], [], 90, 1500, 10⟩ ≠
      lastN (min cexSnapshot7.length
          (max 1 (round ((effTimeWindow ⟨[], [], 90, 1500, 10⟩ : ℚ) / 1.5))).toNat)
        cexSnapshot7 := by
  have h1 : effTimeWindow ⟨[], [], 90, 1500, 10⟩ = 10 := rfl
  rw [h1]
  have h2 : round (((10 : Int) : ℚ) / 1.5) = 7 := by
    rw [show ((10 : Int) : ℚ) / 1.5 = 20/3 by norm_num]
    rw [round_eq]
    rw [show (20 : ℚ)/3 + 1/2 = 43/6 by norm_num]
    rw [Int.floor_eq_iff]
    norm_num
  rw [h2]
  decide

/-! ## Rule-based anomaly detector (`_rule_based_anomaly`, lines 210-237) -/

/-- The result dict built for a CPU-threshold hit (lines 222-228).  The
reasoning string is assembled from the same pieces as the f-string; the
one-decimal float formatting of `cpu` is not modelled. -/
def ruleCpuResult (m : Metric) : AnomalyResult :=
  { reasoning_trace := "Process " ++ m.name ++ " (PID " ++ toString m.pid
      ++ ") is using " ++ toString m.cpu_percent ++ "% CPU."
    suggested_action := some "Throttle CPU"
    target_pid := some m.pid
    target_name := m.name
    throttle_value := some DEFAULT_THROTTLE_VALUE }

/-- The result dict built for a memory-threshold hit (lines 229-236). -/
def ruleMemResult (m : Metric) : AnomalyResult :=
  { reasoning_trace := "Process " ++ m.name ++ " (PID " ++ toString m.pid
      ++ ") using " ++ toString m.mem_mb ++ " MB may indicate memory pressure."
    suggested_action := some "Throttle CPU"
    target_pid := some m.pid
    target_name := m.name
    throttle_value := some DEFAULT_THROTTLE_VALUE }

/-- `_rule_based_anomaly` (lines 210-237): scan the metrics in order; for
each entry first the CPU check (`cpu > cpu_threshold`), then the memory
check (`mem > mem_threshold_mb`); first hit wins, else `None`. -/
def rule_based_anomaly : List Metric → ℚ → ℚ → Option AnomalyResult
  | [], _, _ => none
  | m :: rest, cpuT, memT =>
      if cpuT < m.cpu_percent then some (ruleCpuResult m)
      else if memT < m.mem_mb then some (ruleMemResult m)
      else rule_based_anomaly rest cpuT memT

theorem rule_based_fields (metrics : List Metric) (cpuT memT : ℚ) (r : AnomalyResult)
    (h : rule_based_anomaly metrics cpuT memT = some r) :
    r.suggested_action = some "Throttle CPU" ∧
    r.throttle_value = some DEFAULT_THROTTLE_VALUE := by
  induction metrics with
  | nil => simp [rule_based_anomaly] at h
  | cons m rest ih =>
      by_cases h1 : cpuT < m.cpu_percent
      · rw [show rule_based_anomaly (m :: rest) cpuT memT = some (ruleCpuResult m) from
          by simp [rule_based_anomaly, h1]] at h
        injection h with h3
        rw [← h3]
        exact ⟨rfl, rfl⟩
      · by_cases h2 : memT < m.mem_mb
        · rw [show rule_based_anomaly (m :: rest) cpuT memT = some (ruleMemResult m) from
            by simp [rule_based_anomaly, h1, h2]] at h
          injection h with h3
          rw [← h3]
          exact ⟨rfl, rfl⟩
        · rw [show rule_based_anomaly (m :: rest) cpuT memT
              = rule_based_anomaly rest cpuT memT from
            by simp [rule_based_anomaly, h1, h2]] at h
          exact ih h

/-- C2: on a candidate list sorted by `cpu_percent` descending, the
rule-based detector returns the CPU result for the first candidate whose
`cpu_percent` exceeds the CPU threshold; if no candidate exceeds it, the
memory result for the first candidate whose `mem_mb` exceeds the memory
threshold; otherwise `none` — and every returned result suggests
"Throttle CPU" with the default throttle value 0.5, never Kill. -/
theorem rule_based_on_sorted (metrics : List Metric) (cpuT memT : ℚ)
    (hs : metrics.Sorted (fun a b => b.cpu_percent ≤ a.cpu_percent)) :
    (rule_based_anomaly metrics cpuT memT =
      match metrics.find? (fun m => cpuT < m.cpu_percent) with
      | some m => some (ruleCpuResult m)
      | none => (metrics.find? (fun m => memT < m.mem_mb)).map ruleMemResult) ∧
    ∀ r, rule_based_anomaly metrics cpuT memT = some r →
      r.suggested_action = some "Throttle CPU" ∧
      r.throttle_value = some DEFAULT_THROTTLE_VALUE := by
  refine ⟨?_, fun r h => rule_based_fields metrics cpuT memT r h⟩
  induction metrics with
  | nil => rfl
  | cons m rest ih =>
      rcases List.sorted_cons.mp hs with ⟨hm, hrest⟩
      by_cases h1 : cpuT < m.cpu_percent
      · rw [List.find?_cons_of_pos _ (by simpa using h1)]
        simp [rule_based_anomaly, h1]
      · rw [List.find?_cons_of_neg _ (by simpa using h1)]
        by_cases h2 : memT < m.mem_mb
        · have hnone : rest.find? (fun x => decide (cpuT < x.cpu_percent)) = none := by
            rw [List.find?_eq_none]
            intro x hx
            simp only [decide_eq_true_eq]
            exact not_lt.mpr (le_trans (hm x hx) (not_lt.mp h1))
          rw [hnone, List.find?_cons_of_pos _ (by simpa using h2)]
          simp [rule_based_anomaly, h1, h2]
        · rw [List.find?_cons_of_neg _ (by simpa using h2)]
          rw [show rule_based_anomaly (m :: rest) cpuT memT
              = rule_based_anomaly rest cpuT memT from
            by simp [rule_based_anomaly, h1, h2]]
          exact ih hrest

/-- Witness for `rule_based_on_sorted`: the spec's test vector
`[{cpu=95,mem=200},{cpu=10,mem=50}]` with thresholds `(90, 1500)` is
cpu-sorted and yields the cpu=95 entry with action "Throttle CPU". -/
theorem rule_based_on_sorted_witness :
    ([⟨1, "a", 95, 200⟩, ⟨2, "b", 10, 50⟩] : List Metric).Sorted
      (fun a b => b.cpu_percent ≤ a.cpu_percent) ∧
    rule_based_anomaly [⟨1, "a", 95, 200⟩, ⟨2, "b", 10, 50⟩] 90 1500 =
      some (ruleCpuResult ⟨1, "a", 95, 200⟩) :=
  ⟨by decide, by
    rw [(rule_based_on_sorted [⟨1, "a", 95, 200⟩, ⟨2, "b", 10, 50⟩] 90 1500 (by decide)).1]
    rfl⟩

/-! ## Remediation dispatcher (`analyze_with_claude`, lines 396-415)

The post-detection dispatch block of `analyze_with_claude`: cooldown gate,
command publication and cooldown update.  The cooldown dict `last_auto_fix`
is an association list pid → monotonic time; `redis_client is not None` is
the `hasRedis` flag; the list of strings published to `COMMANDS_CHANNEL`
during the call is returned explicitly. -/

/-- Clamp to `[0, 1]`: `max(0.0, min(1.0, x))` (lines 383, 404, 422). -/
def clamp01 (q : ℚ) : ℚ := max 0 (min 1 q)

/-- The command string `f"throttle:{pid}:{throttle_val}"` (line 405; float
formatting rendered via `toString`). -/
def throttleCmd (pid : Int) (v : ℚ) : String :=
  "throttle:" ++ toString pid ++ ":" ++ toString v

/-- The command string `f"kill:{pid}"` (line 410). -/
def killCmd (pid : Int) : String := "kill:" ++ toString pid

/-- Line 401: `action = result.get("suggested_action") or "Throttle CPU"` —
a missing or empty (falsy) action defaults to "Throttle CPU". -/
def effAction (r : AnomalyResult) : String :=
  match r.suggested_action with
  | none => "Throttle CPU"
  | some s => if s = "" then "Throttle CPU" else s

/-- Outcome of the dispatch block: the updated result dict, the updated
`last_auto_fix` map, and the commands published during the block. -/
structure DispatchOut where
  result : AnomalyResult
  cooldown : List (Int × ℚ)
  published : List String
deriving DecidableEq

/-- Line 400: `last_auto_fix.get(pid, 0)`. -/
def coolGet (cool : List (Int × ℚ)) (pid : Int) : ℚ := (dictLookup cool pid).getD 0

/-- Lines 396-415: if there is a target pid and a Redis client, and at least
`AUTO_FIX_COOLDOWN_SEC` elapsed since the pid's recorded auto-fix time
(absent = 0), publish the command for the action ("Throttle CPU" with the
clamped throttle value defaulted to 0.5, or "Kill"), record `now` in the
cooldown map and set `auto_fix_applied=True`; in every other case publish
nothing and set `auto_fix_applied=False`. -/
def dispatchAutoFix (r : AnomalyResult) (cool : List (Int × ℚ)) (now : ℚ)
    (hasRedis : Bool) : DispatchOut :=
  match r.target_pid, hasRedis with
  | some pid, true =>
      if AUTO_FIX_COOLDOWN_SEC ≤ now - coolGet cool pid then
        let action := effAction r
        if action = "Throttle CPU" then
          let tv := clamp01 ((r.throttle_value).getD DEFAULT_THROTTLE_VALUE)
          ⟨{ r with auto_fix_applied := true }, dictInsert cool pid now,
            [throttleCmd pid tv]⟩
        else if action = "Kill" then
          ⟨{ r with auto_fix_applied := true }, dictInsert cool pid now,
            [killCmd pid]⟩
        else ⟨{ r with auto_fix_applied := false }, cool, []⟩
      else ⟨{ r with auto_fix_applied := false }, cool, []⟩
  | _, _ => ⟨{ r with auto_fix_applied := false }, cool, []⟩

/-- C1: for an anomaly result with a target pid whose recorded last auto-fix
time is `t`, running the dispatcher at monotonic time `now`: if
`now - t < 60` nothing is published, the cooldown map is untouched and
`auto_fix_applied` is `false`; otherwise exactly one command encoding the
action and pid (plus the throttle value — clamped, defaulted to 0.5 — when
the action is "Throttle CPU") is published, `now` is recorded as the pid's
last auto-fix time, and `auto_fix_applied` is `true`. -/
theorem dispatch_cooldown_gate (r : AnomalyResult) (cool : List (Int × ℚ))
    (now t : ℚ) (pid : Int)
    (hp : r.target_pid = some pid)
    (ht : dictLookup cool pid = some t)
    (ha : effAction r = "Throttle CPU" ∨ effAction r = "Kill") :
    (now - t < AUTO_FIX_COOLDOWN_SEC →
      (dispatchAutoFix r cool now true).published = [] ∧
      (dispatchAutoFix r cool now true).result.auto_fix_applied = false ∧
      (dispatchAutoFix r cool now true).cooldown = cool) ∧
    (AUTO_FIX_COOLDOWN_SEC ≤ now - t →
      (dispatchAutoFix r cool now true).result.auto_fix_applied = true ∧
      dictLookup (dispatchAutoFix r cool now true).cooldown pid = some now ∧
      (effAction r = "Throttle CPU" →
        (dispatchAutoFix r cool now true).published =
          [throttleCmd pid (clamp01 ((r.throttle_value).getD DEFAULT_THROTTLE_VALUE))]) ∧
      (effAction r = "Kill" →
        (dispatchAutoFix r cool now true).published = [killCmd pid]) ∧
      (∀ tv, r.throttle_value = some tv → 0 ≤ tv → tv ≤ 1 →
        effAction r = "Throttle CPU" →
        (dispatchAutoFix r cool now true).published = [throttleCmd pid tv])) := by
  have hcg : coolGet cool pid = t := by simp [coolGet, ht]
  constructor
  · intro hcold
    have hnot : ¬ AUTO_FIX_COOLDOWN_SEC ≤ now - coolGet cool pid := by
      rw [hcg]; exact not_le.mpr hcold
    simp [dispatchAutoFix, hp, hnot]
  · intro hhot
    have hyes : AUTO_FIX_COOLDOWN_SEC ≤ now - coolGet cool pid := by rw [hcg]; exact hhot
    have hlook : dictLookup (dictInsert cool pid now) pid = some now := by
      rw [dictLookup_dictInsert]; simp
    rcases ha with haT | haK
    · refine ⟨?_, ?_, ?_, ?_, ?_⟩
      · simp [dispatchAutoFix, hp, hyes, haT]
      · simp only [dispatchAutoFix, hp, hyes, haT, if_pos, if_true]
        simpa [dispatchAutoFix, hp, hyes, haT] using hlook
      · intro _; simp [dispatchAutoFix, hp, hyes, haT]
      · intro hk; rw [haT] at hk; exact absurd hk (by decide)
      · intro tv htv h0 h1 _
        have : clamp01 ((r.throttle_value).getD DEFAULT_THROTTLE_VALUE) = tv := by
          rw [htv]
          simp [clamp01, Option.getD]
          rw [min_eq_right h1, max_eq_right h0]
        simp [dispatchAutoFix, hp, hyes, haT, this]
    · have hne : effAction r ≠ "Throttle CPU" := by rw [haK]; decide
      refine ⟨?_, ?_, ?_, ?_, ?_⟩
      · simp [dispatchAutoFix, hp, hyes, hne, haK]
      · simpa [dispatchAutoFix, hp, hyes, hne, haK] using hlook
      · intro hT; exact absurd hT hne
      · intro _; simp [dispatchAutoFix, hp, hyes, hne, haK]
      · intro tv _ _ _ hT; exact absurd hT hne

/-- A concrete result used in the dispatch witness: a Kill suggestion for
pid 7. -/
def witnessKillResult : AnomalyResult :=
  { suggested_action := some "Kill", target_pid := some 7 }

/-- Witness for `dispatch_cooldown_gate` at pid 7 with recorded time 0 and
`now = 100`. -/
theorem dispatch_cooldown_gate_witness :
    witnessKillResult.target_pid = some 7 ∧
    dictLookup [((7 : Int), (0 : ℚ))] 7 = some 0 ∧
    (effAction witnessKillResult = "Throttle CPU" ∨
      effAction witnessKillResult = "Kill") ∧
    (((100 : ℚ) - 0 < AUTO_FIX_COOLDOWN_SEC →
      (dispatchAutoFix witnessKillResult [(7, 0)] 100 true).published = [] ∧
      (dispatchAutoFix witnessKillResult [(7, 0)] 100 true).result.auto_fix_applied = false ∧
      (dispatchAutoFix witnessKillResult [(7, 0)] 100 true).cooldown = [(7, 0)]) ∧
    (AUTO_FIX_COOLDOWN_SEC ≤ (100 : ℚ) - 0 →
      (dispatchAutoFix witnessKillResult [(7, 0)] 100 true).result.auto_fix_applied = true ∧
      dictLookup (dispatchAutoFix witnessKillResult [(7, 0)] 100 true).cooldown 7 = some 100 ∧
      (effAction witnessKillResult = "Throttle CPU" →
        (dispatchAutoFix witnessKillResult [(7, 0)] 100 true).published =
          [throttleCmd 7 (clamp01 ((witnessKillResult.throttle_value).getD DEFAULT_THROTTLE_VALUE))]) ∧
      (effAction witnessKillResult = "Kill" →
        (dispatchAutoFix witnessKillResult [(7, 0)] 100 true).published = [killCmd 7]) ∧
      (∀ tv, witnessKillResult.throttle_value = some tv → 0 ≤ tv → tv ≤ 1 →
        effAction witnessKillResult = "Throttle CPU" →
        (dispatchAutoFix witnessKillResult [(7, 0)] 100 true).published = [throttleCmd 7 tv]))) :=
  ⟨rfl, rfl, Or.inr rfl,
    dispatch_cooldown_gate witnessKillResult [(7, 0)] 100 0 7 rfl rfl (Or.inr rfl)⟩

/-! ## C8: command-channel strings -/

/-- A string of one of the two documented command forms. -/
def WellFormedCommand (s : String) : Prop :=
  (∃ p v, s = throttleCmd p v) ∨ ∃ p, s = killCmd p

theorem wellFormedCommand_head (s : String) (h : WellFormedCommand s) :
    s.data.head? = some 't' ∨ s.data.head? = some 'k' := by
  rcases h with ⟨p, v, rfl⟩ | ⟨p, rfl⟩
  · exact Or.inl rfl
  · exact Or.inr rfl

/-- C8 (amended, dispatcher half): every publish performed by the
auto-remediation dispatch block is a single command of one of the two forms
`throttle:<pid>:<value>` or `kill:<pid>`. -/
theorem dispatch_published_shape (r : AnomalyResult) (cool : List (Int × ℚ))
    (now : ℚ) (b : Bool) :
    (dispatchAutoFix r cool now b).published = [] ∨
    (∃ p v, (dispatchAutoFix r cool now b).published = [throttleCmd p v]) ∨
    (∃ p, (dispatchAutoFix r cool now b).published = [killCmd p]) := by
  cases htp : r.target_pid with
  | none => cases b <;> simp [dispatchAutoFix, htp]
  | some pid =>
      cases b with
      | false => simp [dispatchAutoFix, htp]
      | true =>
          by_cases hc : AUTO_FIX_COOLDOWN_SEC ≤ now - coolGet cool pid
          · by_cases ha1 : effAction r = "Throttle CPU"
            · refine Or.inr (Or.inl
                ⟨pid, clamp01 ((r.throttle_value).getD DEFAULT_THROTTLE_VALUE), ?_⟩)
              simp [dispatchAutoFix, htp, hc, ha1]
            · by_cases ha2 : effAction r = "Kill"
              · refine Or.inr (Or.inr ⟨pid, ?_⟩)
                simp [dispatchAutoFix, htp, hc, ha1, ha2]
              · exact Or.inl (by simp [dispatchAutoFix, htp, hc, ha1, ha2])
          · exact Or.inl (by simp [dispatchAutoFix, htp, hc])

/-- The command-channel publish performed by the `apply_fix` branch of the
WebSocket endpoint (server.py lines 624-626): the viewer-supplied command
string is published to `COMMANDS_CHANNEL` verbatim, *before* any parsing or
validation; the parsing that follows (lines 627-648) only feeds the override
store and publishes nothing further. -/
def wsApplyFixPublished (cmd : String) : List String := [cmd]

/-- C8 counterexample: a viewer `apply_fix` message with command `"foobar"`
is published verbatim, and `"foobar"` is of neither documented command form,
refuting the claim that *every* string published to the command channel has
one of the two forms. -/
theorem apply_fix_arbitrary_cmd_cex :
    wsApplyFixPublished "foobar" = ["foobar"] ∧ ¬ WellFormedCommand "foobar" := by
  refine ⟨rfl, fun h => ?_⟩
  rcases wellFormedCommand_head _ h with h1 | h1 <;> exact absurd h1 (by decide)

/-! ## Override ledger (`record_override`, `record_dismiss`, `get_override`,
lines 96-147; enrichment lines 417-427)

The Redis hash `opus:overrides` maps a pid-string field to a JSON blob.  It
is modelled as an association list keyed by pid whose stored value is either
a parsed JSON object (an ordered string-keyed association list of JSON
values) or `bad` — content that fails to parse, which every reader treats
as absent/default. -/

/-- A JSON scalar as stored in an override record. -/
inductive JVal where
  | vnull : JVal
  | vint : Int → JVal
  | vnum : ℚ → JVal
  | vstr : String → JVal
  | vbool : Bool → JVal
deriving DecidableEq

/-- A stored hash value: parsed object or unparseable blob. -/
inductive JRaw where
  | good : List (String × JVal) → JRaw
  | bad : JRaw
deriving DecidableEq

/-- The `opus:overrides` hash. -/
def OverrideStore : Type := List (Int × JRaw)

/-- `existing.get(k)` on a parsed record. -/
def objGet (o : List (String × JVal)) (k : String) : Option JVal := dictLookup o k

/-- `existing[k] = v` on a parsed record (insertion-ordered assignment). -/
def objSet (o : List (String × JVal)) (k : String) (v : JVal) : List (String × JVal) :=
  dictInsert o k v

/-- Python `int("...")`: optional surrounding whitespace, optional sign,
decimal digits; anything else raises (modelled as `none`). -/
def digitsToNat (cs : List Char) : Option Nat :=
  if cs.isEmpty then none
  else if cs.all Char.isDigit then
    some (cs.foldl (fun n c => n * 10 + (c.toNat - 48)) 0)
  else none

def pyIntOfString (s : String) : Option Int :=
  match (pyStrip s).data with
  | '-' :: rest => (digitsToNat rest).map (fun n => -(n : Int))
  | '+' :: rest => (digitsToNat rest).map (fun n => (n : Int))
  | cs => (digitsToNat cs).map (fun n => (n : Int))

/-- Python `int(x)` on a JSON value: ints pass through, floats truncate
toward zero, bools map to 0/1, decimal strings parse, `None` raises
(`none`). -/
def jvalToInt : JVal → Option Int
  | .vint n => some n
  | .vnum q => some (q.num.tdiv (q.den : Int))
  | .vbool b => some (if b then 1 else 0)
  | .vstr s => pyIntOfString s
  | .vnull => none

/-- Python `float(x)` on a JSON value (string parsing restricted to the
integral strings `pyIntOfString` accepts; fractional literals never occur in
records written by this server). -/
def jvalToFloat : JVal → Option ℚ
  | .vnum q => some q
  | .vint n => some (n : ℚ)
  | .vbool b => some (if b then 1 else 0)
  | .vstr s => (pyIntOfString s).map (fun n => (n : ℚ))
  | .vnull => none

/-- The JSON value stored for `last_throttle`: the float, or `null` for a
Python `None` (kill overrides). -/
def throttleJVal : Option ℚ → JVal
  | some q => .vnum q
  | none => .vnull

/-- `record_override` (lines 96-116): read the existing record (absent or
unparseable → `{}`), overwrite `last_throttle` / `last_action` /
`last_updated`, overwrite `target_name` only for a truthy (non-empty) name,
and store the result. -/
def record_override (store : OverrideStore) (pid : Int) (name : String)
    (last_throttle : Option ℚ) (last_action : String) (now : ℚ) : OverrideStore :=
  let existing : List (String × JVal) :=
    match dictLookup store pid with
    | some (.good o) => o
    | _ => []
  let e1 := objSet existing "last_throttle" (throttleJVal last_throttle)
  let e2 := objSet e1 "last_action" (.vstr last_action)
  let tn : JVal :=
    if name = "" then (objGet e2 "target_name").getD (.vstr "") else .vstr name
  let e3 := objSet e2 "target_name" tn
  let e4 := objSet e3 "last_updated" (.vnum now)
  dictInsert store pid (.good e4)

/-- `record_dismiss` (lines 119-136): read the existing record (default
`{"dismiss_count": 0}`, also on parse failure), increment `dismiss_count`
via Python `int(...)` (whose exception aborts the write: the store is
returned unchanged), update `target_name` for a truthy name, stamp
`last_updated`, and store. -/
def record_dismiss (store : OverrideStore) (target_pid : Int)
    (target_name : String) (now : ℚ) : OverrideStore :=
  let existing : List (String × JVal) :=
    match dictLookup store target_pid with
    | some (.good o) => o
    | some .bad => [("dismiss_count", .vint 0)]
    | none => [("dismiss_count", .vint 0)]
  match jvalToInt ((objGet existing "dismiss_count").getD (.vint 0)) with
  | none => store
  | some n =>
      let e1 := objSet existing "dismiss_count" (.vint (n + 1))
      let tn : JVal :=
        if target_name = "" then (objGet e1 "target_name").getD (.vstr "")
        else .vstr target_name
      let e2 := objSet e1 "target_name" tn
      let e3 := objSet e2 "last_updated" (.vnum now)
      dictInsert store target_pid (.good e3)

/-- `get_override` (lines 139-147): `None` on absence or unparseable
content. -/
def get_override (store : OverrideStore) (pid : Int) : Option (List (String × JVal)) :=
  match dictLookup store pid with
  | none => none
  | some .bad => none
  | some (.good o) => some o

/-- The enrichment block of `analyze_with_claude` (lines 417-427): when a
Redis client exists and the result has a target pid whose override record is
present and non-empty, attach `user_usual_throttle` (clamped, only when
`last_action == "throttle"` and `last_throttle` is non-null and converts),
attach `dismiss_count` via Python `int(...)` (whose exception aborts the
whole call — modelled as `none`), and set `suggest_reduce_alerts` only when
the count reaches the threshold. -/
def enrichResult (store : OverrideStore) (r : AnomalyResult) (hasRedis : Bool) :
    Option AnomalyResult :=
  match hasRedis, r.target_pid with
  | true, some pid =>
      match get_override store pid with
      | none => some r
      | some o =>
          if o.isEmpty then some r
          else
            let r1 :=
              match objGet o "last_action", objGet o "last_throttle" with
              | some (.vstr la), some v =>
                  if la = "throttle" ∧ v ≠ .vnull then
                    match jvalToFloat v with
                    | some q => { r with user_usual_throttle := some (clamp01 q) }
                    | none => r
                  else r
              | _, _ => r
            match jvalToInt ((objGet o "dismiss_count").getD (.vint 0)) with
            | none => none
            | some d =>
                let r2 := { r1 with dismiss_count := some d }
                some (if DISMISS_SUGGEST_THRESHOLD ≤ d then
                  { r2 with suggest_reduce_alerts := some true } else r2)
  | _, _ => some r

/-- `record_dismiss` applied `n` times to the same pid (the viewer's
`dismiss_anomaly` messages), with arbitrary names and timestamps. -/
def iterDismiss (store : OverrideStore) (pid : Int)
    (names : Nat → String) (times : Nat → ℚ) : Nat → OverrideStore
  | 0 => store
  | n + 1 => record_dismiss (iterDismiss store pid names times n) pid (names n) (times n)

theorem objGet_objSet (o : List (String × JVal)) (k k2 : String) (v : JVal) :
    objGet (objSet o k v) k2 = if k = k2 then some v else objGet o k2 :=
  dictLookup_dictInsert o k k2 v

theorem record_dismiss_absent (store : OverrideStore) (pid : Int) (name : String)
    (now : ℚ) (habs : dictLookup store pid = none) :
    record_dismiss store pid name now =
      dictInsert store pid (.good
        (objSet (objSet [("dismiss_count", JVal.vint 1)]
          "target_name" (if name = "" then .vstr "" else .vstr name))
          "last_updated" (.vnum now))) := by
  simp only [record_dismiss, habs]
  rfl

theorem record_dismiss_present (store : OverrideStore) (pid : Int) (name : String)
    (now : ℚ) (o : List (String × JVal)) (k : Int)
    (ho : dictLookup store pid = some (.good o))
    (hdc : objGet o "dismiss_count" = some (.vint k)) :
    record_dismiss store pid name now =
      dictInsert store pid (.good
        (objSet (objSet (objSet o "dismiss_count" (.vint (k + 1)))
          "target_name"
          (if name = "" then
            (objGet (objSet o "dismiss_count" (.vint (k + 1))) "target_name").getD (.vstr "")
          else .vstr name))
          "last_updated" (.vnum now))) := by
  simp only [record_dismiss, ho, objGet] at *
  rw [hdc]
  rfl

theorem record_dismiss_count (store : OverrideStore) (pid : Int) (name : String)
    (now : ℚ) (k : Int)
    (h : (dictLookup store pid = none ∧ k = 0) ∨
      ∃ o, dictLookup store pid = some (.good o) ∧
        objGet o "dismiss_count" = some (.vint k) ∧
        objGet o "last_action" = none) :
    ∃ o', dictLookup (record_dismiss store pid name now) pid = some (.good o') ∧
      objGet o' "dismiss_count" = some (.vint (k + 1)) ∧
      objGet o' "last_action" = none := by
  rcases h with ⟨habs, rfl⟩ | ⟨o, ho, hdc, hla⟩
  · rw [record_dismiss_absent store pid name now habs]
    refine ⟨objSet (objSet [("dismiss_count", JVal.vint 1)]
        "target_name" (if name = "" then .vstr "" else .vstr name))
        "last_updated" (.vnum now), ?_, ?_, ?_⟩
    · rw [dictLookup_dictInsert]; simp
    · rw [objGet_objSet, if_neg (by decide), objGet_objSet, if_neg (by decide)]
      rfl
    · rw [objGet_objSet, if_neg (by decide), objGet_objSet, if_neg (by decide)]
      rfl
  · rw [record_dismiss_present store pid name now o k ho hdc]
    refine ⟨objSet (objSet (objSet o "dismiss_count" (.vint (k + 1)))
        "target_name"
        (if name = "" then
          (objGet (objSet o "dismiss_count" (.vint (k + 1))) "target_name").getD (.vstr "")
        else .vstr name))
        "last_updated" (.vnum now), ?_, ?_, ?_⟩
    · rw [dictLookup_dictInsert]; simp
    · rw [objGet_objSet, if_neg (by decide), objGet_objSet, if_neg (by decide),
        objGet_objSet, if_pos rfl]
    · rw [objGet_objSet, if_neg (by decide), objGet_objSet, if_neg (by decide),
        objGet_objSet, if_neg (by decide)]
      exact hla

theorem iterDismiss_count (store : OverrideStore) (pid : Int)
    (names : Nat → String) (times : Nat → ℚ)
    (habs : dictLookup store pid = none) :
    ∀ m : Nat, ∃ o, dictLookup (iterDismiss store pid names times (m + 1)) pid
        = some (.good o) ∧
      objGet o "dismiss_count" = some (.vint ((m + 1 : Nat) : Int)) ∧
      objGet o "last_action" = none := by
  intro m
  induction m with
  | zero =>
      have h := record_dismiss_count store pid (names 0) (times 0) 0 (Or.inl ⟨habs, rfl⟩)
      simpa [iterDismiss] using h
  | succ j ih =>
      obtain ⟨o, ho, hdc, hla⟩ := ih
      have h := record_dismiss_count (iterDismiss store pid names times (j + 1)) pid
        (names (j + 1)) (times (j + 1)) ((j + 1 : Nat) : Int) (Or.inr ⟨o, ho, hdc, hla⟩)
      obtain ⟨o', h1, h2, h3⟩ := h
      refine ⟨o', by simpa [iterDismiss] using h1, ?_, h3⟩
      rw [h2]
      norm_num

/-- C6: applying `record_dismiss` `n ≥ 1` times to a pid starting from an
absent override record stores a `dismiss_count` of exactly `n` (in
particular the count never decreases across the operations), and the next
enriched anomaly result targeting that pid carries `dismiss_count = n` with
`suggest_reduce_alerts` set to true exactly when `n ≥ 3`. -/
theorem dismiss_count_enrichment (store : OverrideStore) (pid : Int)
    (names : Nat → String) (times : Nat → ℚ) (n : Nat)
    (habs : dictLookup store pid = none) (hn : 1 ≤ n)
    (r : AnomalyResult) (hp : r.target_pid = some pid)
    (hsa : r.suggest_reduce_alerts = none) :
    (∃ o, dictLookup (iterDismiss store pid names times n) pid = some (.good o) ∧
      objGet o "dismiss_count" = some (.vint (n : Int))) ∧
    (∃ r', enrichResult (iterDismiss store pid names times n) r true = some r' ∧
      r'.dismiss_count = some (n : Int) ∧
      (r'.suggest_reduce_alerts = some true ↔ DISMISS_SUGGEST_THRESHOLD ≤ (n : Int))) := by
  obtain ⟨m, rfl⟩ : ∃ m, n = m + 1 := ⟨n - 1, by omega⟩
  obtain ⟨o, ho, hdc, hla⟩ := iterDismiss_count store pid names times habs m
  refine ⟨⟨o, ho, hdc⟩, ?_⟩
  have hgo : get_override (iterDismiss store pid names times (m + 1)) pid = some o := by
    simp [get_override, ho]
  have hone : o.isEmpty = false := by
    cases o with
    | nil => simp [objGet, dictLookup] at hdc
    | cons a l => rfl
  by_cases h3 : DISMISS_SUGGEST_THRESHOLD ≤ ((m + 1 : Nat) : Int)
  · have h3c : DISMISS_SUGGEST_THRESHOLD ≤ (m : Int) + 1 := by push_cast at h3; exact h3
    refine ⟨{ r with dismiss_count := some ((m + 1 : Nat) : Int), suggest_reduce_alerts := some true }, ?_, rfl, ⟨fun _ => h3, fun _ => rfl⟩⟩
    simp only [enrichResult, hp, hgo, hone, hla, hdc]
    simp [jvalToInt, h3c]
  · have h3c : ¬ DISMISS_SUGGEST_THRESHOLD ≤ (m : Int) + 1 := by push_cast at h3; exact h3
    refine ⟨{ r with dismiss_count := some ((m + 1 : Nat) : Int) }, ?_, rfl, ?_⟩
    · simp only [enrichResult, hp, hgo, hone, hla, hdc]
      simp [jvalToInt, h3c]
    · constructor
      · intro hcon
        rw [show ({ r with dismiss_count := some ((m + 1 : Nat) : Int) } :
            AnomalyResult).suggest_reduce_alerts = r.suggest_reduce_alerts from rfl,
          hsa] at hcon
        exact Option.noConfusion hcon
      · intro hle
        exact absurd hle h3

/-- A minimal detector result targeting pid 5, used in the dismiss
witness. -/
def witnessDismissResult : AnomalyResult := { target_pid := some 5 }

/-- Witness for `dismiss_count_enrichment`: three dismisses of pid 5 from an
empty store give `dismiss_count = 3` and turn `suggest_reduce_alerts` on. -/
theorem dismiss_count_enrichment_witness :
    dictLookup ([] : OverrideStore) 5 = none ∧ 1 ≤ 3 ∧
    witnessDismissResult.target_pid = some 5 ∧
    witnessDismissResult.suggest_reduce_alerts = none ∧
    ((∃ o, dictLookup (iterDismiss [] 5 (fun _ => "p") (fun _ => 0) 3) 5
          = some (.good o) ∧
        objGet o "dismiss_count" = some (.vint ((3 : Nat) : Int))) ∧
     (∃ r', enrichResult (iterDismiss [] 5 (fun _ => "p") (fun _ => 0) 3)
          witnessDismissResult true = some r' ∧
        r'.dismiss_count = some ((3 : Nat) : Int) ∧
        (r'.suggest_reduce_alerts = some true ↔
          DISMISS_SUGGEST_THRESHOLD ≤ ((3 : Nat) : Int)))) :=
  ⟨rfl, by decide, rfl, rfl,
    dismiss_count_enrichment [] 5 (fun _ => "p") (fun _ => 0) 3 rfl (by decide)
      witnessDismissResult rfl rfl⟩

/-- C10: on a pid whose stored override record is well-formed (parses), a
`record_override` write leaves `dismiss_count` unchanged and preserves every
stored field other than `last_throttle`, `last_action`, `target_name` and
`last_updated`; it overwrites `last_throttle`, `last_action` and
`last_updated`, and overwrites `target_name` only when the new name is
non-empty — an empty name keeps the previously stored `target_name`
value. -/
theorem record_override_frame (store : OverrideStore) (pid : Int) (name : String)
    (th : Option ℚ) (act : String) (now : ℚ) (o : List (String × JVal))
    (ho : dictLookup store pid = some (.good o)) :
    ∃ o', dictLookup (record_override store pid name th act now) pid = some (.good o') ∧
      objGet o' "dismiss_count" = objGet o "dismiss_count" ∧
      (∀ k, k ≠ "last_throttle" → k ≠ "last_action" → k ≠ "target_name" →
        k ≠ "last_updated" → objGet o' k = objGet o k) ∧
      objGet o' "last_throttle" = some (throttleJVal th) ∧
      objGet o' "last_action" = some (.vstr act) ∧
      (name ≠ "" → objGet o' "target_name" = some (.vstr name)) ∧
      (∀ v, name = "" → objGet o "target_name" = some v →
        objGet o' "target_name" = some v) ∧
      objGet o' "last_updated" = some (.vnum now) := by
  have hro : record_override store pid name th act now =
      dictInsert store pid (.good
        (objSet (objSet (objSet (objSet o "last_throttle" (throttleJVal th))
          "last_action" (.vstr act))
          "target_name"
          (if name = "" then
            (objGet (objSet (objSet o "last_throttle" (throttleJVal th))
              "last_action" (.vstr act)) "target_name").getD (.vstr "")
          else .vstr name))
          "last_updated" (.vnum now))) := by
    simp only [record_override, ho]
  rw [hro]
  refine ⟨objSet (objSet (objSet (objSet o "last_throttle" (throttleJVal th))
    "last_action" (JVal.vstr act))
    "target_name"
    (if name = "" then
      (objGet (objSet (objSet o "last_throttle" (throttleJVal th))
        "last_action" (JVal.vstr act)) "target_name").getD (JVal.vstr "")
    else JVal.vstr name))
    "last_updated" (JVal.vnum now), ?_, ?_, ?_, ?_, ?_, ?_, ?_, ?_⟩
  · rw [dictLookup_dictInsert]
    simp
  · rw [objGet_objSet, if_neg (by decide), objGet_objSet, if_neg (by decide),
      objGet_objSet, if_neg (by decide), objGet_objSet, if_neg (by decide)]
  · intro k h1 h2 h3 h4
    rw [objGet_objSet, if_neg (fun hh => h4 hh.symm),
      objGet_objSet, if_neg (fun hh => h3 hh.symm),
      objGet_objSet, if_neg (fun hh => h2 hh.symm),
      objGet_objSet, if_neg (fun hh => h1 hh.symm)]
  · rw [objGet_objSet, if_neg (by decide), objGet_objSet, if_neg (by decide),
      objGet_objSet, if_neg (by decide), objGet_objSet, if_pos rfl]
  · rw [objGet_objSet, if_neg (by decide), objGet_objSet, if_neg (by decide),
      objGet_objSet, if_pos rfl]
  · intro hname
    rw [objGet_objSet, if_neg (by decide), objGet_objSet, if_pos rfl, if_neg hname]
  · intro v hname hv
    rw [objGet_objSet, if_neg (by decide), objGet_objSet, if_pos rfl, if_pos hname,
      objGet_objSet, if_neg (by decide), objGet_objSet, if_neg (by decide), hv]
    rfl
  · rw [objGet_objSet, if_pos rfl]

/-- Witness for `record_override_frame`: pid 4 holds a record with
`dismiss_count = 2`; a kill override write preserves that count. -/
theorem record_override_frame_witness :
    dictLookup ([(4, JRaw.good [("dismiss_count", JVal.vint 2)])] : OverrideStore) 4
      = some (.good [("dismiss_count", JVal.vint 2)]) ∧
    (∃ o', dictLookup (record_override
          [(4, JRaw.good [("dismiss_count", JVal.vint 2)])] 4 "x" none "kill" 0) 4
        = some (.good o') ∧
      objGet o' "dismiss_count" = objGet [("dismiss_count", JVal.vint 2)] "dismiss_count" ∧
      (∀ k, k ≠ "last_throttle" → k ≠ "last_action" → k ≠ "target_name" →
        k ≠ "last_updated" →
        objGet o' k = objGet [("dismiss_count", JVal.vint 2)] k) ∧
      objGet o' "last_throttle" = some (throttleJVal none) ∧
      objGet o' "last_action" = some (.vstr "kill") ∧
      ("x" ≠ "" → objGet o' "target_name" = some (.vstr "x")) ∧
      (∀ v, "x" = "" → objGet [("dismiss_count", JVal.vint 2)] "target_name" = some v →
        objGet o' "target_name" = some v) ∧
      objGet o' "last_updated" = some (.vnum 0)) :=
  ⟨rfl, record_override_frame [(4, JRaw.good [("dismiss_count", JVal.vint 2)])]
    4 "x" none "kill" 0 [("dismiss_count", JVal.vint 2)] rfl⟩
